import Mathlib

/-!
Verification development for the documentation change tracker
(src/track-doc-changes.py).  The Python source is shallowly embedded:
pure text-processing functions become Lean functions over `String` /
`List Char`, external collaborators (git process invocations, the
filesystem) become explicit function parameters, and Python exceptions
become `Option` results (`none` models an uncaught exception aborting
the run).  Strings in Lean 4.14 are lists of unicode scalar values,
matching Python code-point semantics for the ASCII data handled here.
-/

set_option maxRecDepth 8000

namespace DocTracker

/-! ## Character and string primitives (models of Python built-ins) -/

/-- Model of the character class accepted by Python `str.strip()` /
regex `\s` for the ASCII range handled by this tool. -/
def pyIsSpace (c : Char) : Bool :=
  c = ' ' || c = '\t' || c = '\n' || c = '\r' || c = Char.ofNat 11 || c = Char.ofNat 12

/-- Regex word character `\w` (ASCII range): letters, digits, underscore. -/
def isWordChar (c : Char) : Bool :=
  c.isAlphanum || c = '_'

/-- Model of Python `str.lower()` (ASCII case folding suffices here). -/
def toLowerL (l : List Char) : List Char :=
  l.map Char.toLower

/-- Model of Python `str.strip()`: drop whitespace from both ends. -/
def trimL (l : List Char) : List Char :=
  ((l.dropWhile pyIsSpace).reverse.dropWhile pyIsSpace).reverse

/-- Model of Python `str.split(sep)` with no maxsplit, for a one-character
separator: `"".split(sep) = [""]`, separators at the ends produce empty
fields. -/
def splitSep (sep : Char) : List Char → List (List Char)
  | [] => [[]]
  | c :: rest =>
    if c = sep then [] :: splitSep sep rest
    else
      match splitSep sep rest with
      | [] => [[c]]
      | t :: ts => (c :: t) :: ts

/-- Model of Python `str.split(sep, maxsplit)` for a one-character
separator: at most `n` cuts are made, scanning left to right; the
remainder after the last cut is kept verbatim as the final field. -/
def splitSepLim (sep : Char) : Nat → List Char → List (List Char)
  | _, [] => [[]]
  | 0, l => [l]
  | n + 1, c :: rest =>
    if c = sep then [] :: splitSepLim sep n rest
    else
      match splitSepLim sep (n + 1) rest with
      | [] => [[c]]
      | t :: ts => (c :: t) :: ts

/-- Fuel-driven worker for `replaceAll`; the fuel is an upper bound on the
number of characters still to be consumed, so `fuel = s.length` always
suffices for a non-empty pattern. -/
def replaceAllFuel (pat repl : List Char) : Nat → List Char → List Char
  | _, [] => []
  | 0, s => s
  | fuel + 1, c :: rest =>
    if pat ≠ [] && pat.isPrefixOf (c :: rest) then
      repl ++ replaceAllFuel pat repl fuel ((c :: rest).drop pat.length)
    else
      c :: replaceAllFuel pat repl fuel rest

/-- Model of Python `str.replace(pat, repl)`: replaces every
non-overlapping occurrence, scanning left to right.  (An empty pattern is
returned unchanged; the source never replaces an empty pattern.) -/
def replaceAll (pat repl s : List Char) : List Char :=
  replaceAllFuel pat repl s.length s

/-- Lexicographic code-point comparison, the model of Python string
`<=`. -/
def lexLeL : List Char → List Char → Bool
  | [], _ => true
  | _ :: _, [] => false
  | a :: as, b :: bs =>
    if a.val < b.val then true
    else if b.val < a.val then false
    else lexLeL as bs

/-- Python `a <= b` on strings. -/
def strLeB (a b : String) : Bool :=
  lexLeL a.data b.data

/-- Python `a.startswith(b)` on strings. -/
def pyStartsWith (a b : String) : Bool :=
  b.data.isPrefixOf a.data

/-- Python `a.endswith(b)` on strings. -/
def pyEndsWith (a b : String) : Bool :=
  b.data.isSuffixOf a.data

/-- Model of Python `'\n'.join(lines)`. -/
def joinLines : List String → String
  | [] => ""
  | [l] => l
  | l :: l' :: ls => l ++ "\n" ++ joinLines (l' :: ls)

/-- Model of Python `', '.join(items)`. -/
def joinComma : List String → String
  | [] => ""
  | [l] => l
  | l :: l' :: ls => l ++ ", " ++ joinComma (l' :: ls)

/-! ## Data model -/

/-- A commit record as parsed from `git log --pretty=format:'%H|%s|%ci|%cn'`:
hash, subject, committer date, committer name (the source calls the last
field `author`). -/
structure Commit where
  hash : String
  subject : String
  date : String
  author : String
deriving DecidableEq, Repr

/-- A changelog entry as collected by `get_changelog_entries_in_date_range`. -/
structure ChangelogEntry where
  title : String
  url : Option String
  date : String
  file : String
deriving DecidableEq, Repr

/-! ## Git-log output parsing
(`get_commits_in_range`, `get_changelog_commits_in_range`) -/

/-- The line produced by git for a commit under
`--pretty=format:'%H|%s|%ci|%cn'`: the four fields joined by `|`. -/
def format_log_line (c : Commit) : String :=
  c.hash ++ "|" ++ c.subject ++ "|" ++ c.date ++ "|" ++ c.author

/-- Per-line parsing in `get_commits_in_range`:
`hash_val, subject, date, author = line.split('|', 3)`.  The unpacking
succeeds only when the bounded split yields exactly four parts; `none`
models the uncaught `ValueError` raised otherwise. -/
def parse_log_line (l : List Char) : Option Commit :=
  match splitSepLim '|' 3 l with
  | [h, s, d, a] => some ⟨String.mk h, String.mk s, String.mk d, String.mk a⟩
  | _ => none

/-- Per-line parsing in `get_changelog_commits_in_range`: the split result
is kept only `if len(parts) >= 4` (with `maxsplit=3` the length is at most
4), and a short line is skipped. -/
def parse_log_line_checked (l : List Char) : Option Commit :=
  match splitSepLim '|' 3 l with
  | [h, s, d, a] => some ⟨String.mk h, String.mk s, String.mk d, String.mk a⟩
  | _ => none

/-- The batch loop of `get_commits_in_range`: every non-empty line must
unpack into four fields; the first malformed line raises, aborting the
whole batch (`none`). -/
def parse_lines_strict : List (List Char) → Option (List Commit)
  | [] => some []
  | l :: ls =>
    match parse_log_line l with
    | none => none
    | some c => (parse_lines_strict ls).map (c :: ·)

/-- Batch parsing in `get_commits_in_range`: empty output means no
commits; otherwise each non-empty line of the output is unpacked, and a
malformed line aborts with an exception (`none`). -/
def get_commits_parse (output : String) : Option (List Commit) :=
  if output = "" then some []
  else parse_lines_strict ((splitSep '\n' output.data).filter (· ≠ []))

/-- Batch parsing in `get_changelog_commits_in_range`: empty output means
no commits; otherwise malformed lines are skipped and the rest of the
batch is still parsed. -/
def get_changelog_commits_parse (output : String) : List Commit :=
  if output = "" then []
  else ((splitSep '\n' output.data).filter (· ≠ [])).filterMap parse_log_line_checked

/-! ## Classification tables -/

def COMMON_PRODUCTS : List (String × String) :=
  [("support", "Support"), ("fundamentals", "Fundamentals"), ("terraform", "Terraform")]

def APP_PERF_PRODUCTS : List (String × String) :=
  [("argo-smart-routing", "Argo Smart Routing"),
   ("automatic-platform-optimization", "Automatic Platform Optimization"),
   ("cache", "Cache"),
   ("cloudflare-for-platforms", "Cloudflare for SaaS"),
   ("data-localization", "Data Localization"),
   ("dns", "DNS"),
   ("health-checks", "Health Checks"),
   ("load-balancing", "Load Balancing"),
   ("logs", "Logs"),
   ("rules", "Rules"),
   ("speed", "Speed"),
   ("ssl", "SSL/TLS"),
   ("version-management", "Version Management"),
   ("1.1.1.1", "1.1.1.1")]

def APP_SEC_PRODUCTS : List (String × String) :=
  [("api-shield", "API Shield"),
   ("bots", "Bot Management"),
   ("cloudflare-challenges", "Cloudflare Challenges"),
   ("ddos-protection", "DDoS Protection"),
   ("firewall", "Firewall"),
   ("log-explorer", "Log Explorer"),
   ("page-shield", "Page Shield"),
   ("ruleset-engine", "Ruleset Engine"),
   ("security", "Security"),
   ("security-center", "Security Center"),
   ("smart-shield", "Smart Shield"),
   ("turnstile", "Turnstile"),
   ("waf", "WAF"),
   ("waiting-room", "Waiting Room")]

def CF1_PRODUCTS : List (String × String) :=
  [("browser-rendering", "Browser Rendering"),
   ("byoip", "BYOIP"),
   ("china-network", "China Network"),
   ("client-ip-geolocation", "Client IP Geolocation"),
   ("cloudflare-one", "Cloudflare One"),
   ("email-security", "Email Security"),
   ("magic-cloud-networking", "Magic Cloud Networking"),
   ("magic-firewall", "Magic Firewall"),
   ("magic-network-monitoring", "Magic Network Monitoring"),
   ("magic-transit", "Magic Transit"),
   ("magic-wan", "Magic WAN"),
   ("network", "Network"),
   ("network-error-logging", "Network Error Logging"),
   ("network-interconnect", "Network Interconnect"),
   ("spectrum", "Spectrum"),
   ("warp-client", "WARP Client")]

def PLATFORM_PRODUCTS : List (String × String) :=
  [("analytics", "Analytics"),
   ("billing", "Billing"),
   ("notifications", "Notifications"),
   ("pulumi", "Pulumi"),
   ("radar", "Radar"),
   ("registrar", "Registrar"),
   ("tenant", "Tenant"),
   ("time-services", "Time Services")]

def DEV_PLAT_PRODUCTS : List (String × String) :=
  [("agents", "Agents"),
   ("ai-crawl-control", "AI Crawl Control"),
   ("ai-gateway", "AI Gateway"),
   ("ai-search", "AI Search"),
   ("containers", "Containers"),
   ("d1", "D1"),
   ("dmarc-management", "DMARC Management"),
   ("durable-objects", "Durable Objects"),
   ("email-routing", "Email Routing"),
   ("google-tag-gateway", "Google Tag Gateway"),
   ("hyperdrive", "Hyperdrive"),
   ("images", "Images"),
   ("kv", "KV"),
   ("pages", "Pages"),
   ("pipelines", "Pipelines"),
   ("queues", "Queues"),
   ("r2", "R2"),
   ("r2-sql", "R2 SQL"),
   ("realtime", "Realtime"),
   ("sandbox", "Sandbox"),
   ("secrets-store", "Secrets Store"),
   ("stream", "Stream"),
   ("vectorize", "Vectorize"),
   ("web3", "Web3"),
   ("workers", "Workers"),
   ("workers-ai", "Workers AI"),
   ("workers-vpc", "Workers VPC"),
   ("workflows", "Workflows"),
   ("zaraz", "Zaraz")]

/-- The CATEGORIES table: category key, display name, product map. -/
def CATEGORIES : List (String × String × List (String × String)) :=
  [("app_perf", "Application Performance", APP_PERF_PRODUCTS),
   ("app_sec", "Application Security", APP_SEC_PRODUCTS),
   ("cf1", "Cloudflare One", CF1_PRODUCTS),
   ("platform", "Platform", PLATFORM_PRODUCTS),
   ("dev_plat", "Developer Platform", DEV_PLAT_PRODUCTS)]

/-- Mapping from changelog directory names to doc directory names. -/
def CHANGELOG_TO_DOCS_MAP : List (String × String) :=
  [("access", "cloudflare-one"),
   ("audit-logs", "fundamentals"),
   ("browser-isolation", "cloudflare-one"),
   ("casb", "cloudflare-one"),
   ("cloudflare-tunnel", "cloudflare-one"),
   ("dex", "cloudflare-one"),
   ("dlp", "cloudflare-one"),
   ("email-security-cf1", "cloudflare-one"),
   ("gateway", "cloudflare-one"),
   ("risk-score", "cloudflare-one"),
   ("sdk", "terraform"),
   ("workers-for-platforms", "cloudflare-for-platforms"),
   ("zero-trust-warp", "warp-client")]

/-- `get_tracked_products`: the common products plus, for `none`, every
category, or else the products of each selected category key in the given
order.  The dictionary updates of the source never collide on a key, so
an append-based association list has the same lookup behaviour. -/
def get_tracked_products : Option (List String) → List (String × String)
  | none => COMMON_PRODUCTS ++ (CATEGORIES.map (fun c => c.2.2)).flatten
  | some ks =>
    COMMON_PRODUCTS ++ (ks.filterMap (fun k => (List.lookup k CATEGORIES).map (·.2))).flatten

/-! ## Trivial / significant subject classification

The patterns of the source are word-bounded literal phrases, in one case
two phrases joined by `.*`.  The matcher below implements exactly these
regex forms: a phrase matches at a position when its characters occur
literally and both ends sit on a `\b` word boundary, and `A.*B` matches
when a bounded occurrence of `A` is followed, with no newline in between
(`.` does not match a newline), by a bounded occurrence of `B`. -/

/-- A `\b` word boundary between an outer neighbour (none at the text
edge) and the adjacent pattern character. -/
def wbBoundary (outer : Option Char) (inner : Option Char) : Bool :=
  match inner with
  | none => true
  | some c =>
    if isWordChar c then
      match outer with
      | none => true
      | some o => !isWordChar o
    else
      match outer with
      | none => false
      | some o => isWordChar o

/-- The phrase `pat` matches at the start of `s`, with `prev` the
character just before that position, under `\b...\b` anchoring. -/
def wbMatchesAt (pat : List Char) (prev : Option Char) (s : List Char) : Bool :=
  pat.isPrefixOf s && wbBoundary prev pat.head? && wbBoundary ((s.drop pat.length).head?) pat.getLast?

/-- Search for a word-bounded occurrence of `pat` anywhere in `s`;
`prev` is the character before the current position. -/
def wbSearchAux (pat : List Char) : Option Char → List Char → Bool
  | prev, [] => wbMatchesAt pat prev []
  | prev, c :: rest => wbMatchesAt pat prev (c :: rest) || wbSearchAux pat (some c) rest

/-- After a match of the first phrase, scan across the `.*` gap (which
cannot cross a newline) for a word-bounded occurrence of `patB`. -/
def wbGapSearch (patB : List Char) : Option Char → List Char → Bool
  | prev, [] => wbMatchesAt patB prev []
  | prev, c :: rest =>
    wbMatchesAt patB prev (c :: rest) || (c ≠ '\n' && wbGapSearch patB (some c) rest)

/-- Search for `\bA\b.*\bB\b`: a word-bounded `A` followed by a
word-bounded `B` with no newline in the gap. -/
def wbSeqSearchAux (patA patB : List Char) : Option Char → List Char → Bool
  | _, [] => false
  | prev, c :: rest =>
    (wbMatchesAt patA prev (c :: rest)
        && wbGapSearch patB patA.getLast? ((c :: rest).drop patA.length))
      || wbSeqSearchAux patA patB (some c) rest

/-- The TRIVIAL_PATTERNS list: every pattern is a single word-bounded
phrase. -/
def TRIVIAL_PATTERNS : List (List Char) :=
  [("typo").data, ("fix typo").data, ("formatting").data, ("whitespace").data,
   ("minor").data, ("update link").data, ("broken link").data, ("fix link").data,
   ("style").data, ("indentation").data, ("punctuation").data, ("spelling").data,
   ("dash button").data, ("dashbutton").data]

/-- The single-phrase members of SIGNIFICANT_PATTERNS. -/
def SIGNIFICANT_SINGLE_PATTERNS : List (List Char) :=
  [("new feature").data, ("deprecate").data, ("announce").data,
   ("release").data, ("major").data]

/-- The two-phrase (`\bA\b.*\bB\b`) members of SIGNIFICANT_PATTERNS. -/
def SIGNIFICANT_PAIR_PATTERNS : List (List Char × List Char) :=
  [(("add").data, ("section").data),
   (("new").data, ("guide").data),
   (("update").data, ("api").data)]

/-- `is_trivial_change`: lowercase the subject and test every trivial
pattern (the source additionally passes IGNORECASE, which is redundant on
the lowercased text). -/
def is_trivial_change (commit_subject : String) : Bool :=
  TRIVIAL_PATTERNS.any (fun p => wbSearchAux p none (toLowerL commit_subject.data))

/-- `is_significant_change`: lowercase the subject and test every
significant pattern. -/
def is_significant_change (commit_subject : String) : Bool :=
  SIGNIFICANT_SINGLE_PATTERNS.any
      (fun p => wbSearchAux p none (toLowerL commit_subject.data))
    || SIGNIFICANT_PAIR_PATTERNS.any
      (fun p => wbSeqSearchAux p.1 p.2 none (toLowerL commit_subject.data))

/-! ## Path to URL mapping -/

def BASE_URL : String := "https://developers.cloudflare.com"

/-- The extension strip `re.sub(r'\.(mdx?|html)$', '', path)` of
`file_to_url`: at most one recognized extension is removed from the end
(the three suffixes are mutually exclusive). -/
def stripDocExt (p : String) : String :=
  if pyEndsWith p ".mdx" then String.mk (p.data.take (p.data.length - 4))
  else if pyEndsWith p ".html" then String.mk (p.data.take (p.data.length - 5))
  else if pyEndsWith p ".md" then String.mk (p.data.take (p.data.length - 3))
  else p

/-- `file_to_url`: paths outside the documentation root map to `None`;
otherwise the root prefix is removed (Python `str.replace` removes every
occurrence), a recognized extension is stripped, a trailing `/index`
segment is collapsed, and the base URL is prefixed. -/
def file_to_url (file_path : String) : Option String :=
  if pyStartsWith file_path "src/content/docs/" then
    let path := String.mk (replaceAll ("src/content/docs/").data [] file_path.data)
    let path := stripDocExt path
    let path := if pyEndsWith path "/index"
      then String.mk (path.data.take (path.data.length - 6)) else path
    some (BASE_URL ++ "/" ++ path ++ "/")
  else none

/-- Split a character list at its first `/`: the regex piece `([^/]+)/`
matches exactly when the part before the first slash is non-empty. -/
def breakAtSlash : List Char → Option (List Char × List Char)
  | [] => none
  | c :: rest =>
    if c = '/' then some ([], rest)
    else
      match breakAtSlash rest with
      | some (seg, tail) => some (c :: seg, tail)
      | none => none

/-- `extract_product_from_path`: match `src/content/docs/([^/]+)/` and look
the captured directory up in the tracked-product table. -/
def extract_product_from_path (file_path : String) (tracked : List (String × String)) :
    Option String :=
  if pyStartsWith file_path "src/content/docs/" then
    match breakAtSlash (file_path.data.drop 17) with
    | some (seg, _) => if seg ≠ [] then List.lookup (String.mk seg) tracked else none
    | none => none
  else none

/-- `extract_changelog_product`: match `src/content/changelog/([^/]+)/`,
translate the captured changelog directory through the alias table
(falling back to itself), then look it up in the tracked-product table. -/
def extract_changelog_product (file_path : String) (tracked : List (String × String)) :
    Option String :=
  if pyStartsWith file_path "src/content/changelog/" then
    match breakAtSlash (file_path.data.drop 22) with
    | some (seg, _) =>
      if seg ≠ [] then
        List.lookup ((List.lookup (String.mk seg) CHANGELOG_TO_DOCS_MAP).getD (String.mk seg))
          tracked
      else none
    | none => none
  else none

/-- `changelog_file_to_url`: match
`src/content/changelog/[^/]+/(.+)\.mdx?$` (the category directory is
dropped, the captured stem must be non-empty), lowercase the stem, remove
its `.` characters, and prefix the changelog base URL. -/
def changelog_file_to_url (file_path : String) : Option String :=
  if pyStartsWith file_path "src/content/changelog/" then
    match breakAtSlash (file_path.data.drop 22) with
    | some (seg, tail) =>
      if seg = [] then none
      else if (".mdx").data.isSuffixOf tail ∧ 4 < tail.length then
        some (BASE_URL ++ "/changelog/" ++
          String.mk (replaceAll ['.'] [] (toLowerL (tail.take (tail.length - 4)))) ++ "/")
      else if (".md").data.isSuffixOf tail ∧ 3 < tail.length then
        some (BASE_URL ++ "/changelog/" ++
          String.mk (replaceAll ['.'] [] (toLowerL (tail.take (tail.length - 3)))) ++ "/")
      else none
    | none => none
  else none

/-! ## The main filtering loop
Models the loop of `main` that builds `commits_by_product`
(a `defaultdict(list)`, here a total function with `[]` as default). -/

/-- Point update of a product-keyed map (a `defaultdict(list)` is a total
function with `[]` as default). -/
def updateMap {α : Type} (acc : String → List α) (p : String) (l : List α) :
    String → List α :=
  fun q => if q = p then l else acc q

/-- The inner loop over the changed files of one commit: for each file
mapping to a tracked product, append the commit to that product unless it
is already present (Python `commit not in commits_by_product[product]`,
record equality). -/
def add_commit_for_files (tracked : List (String × String)) (c : Commit) :
    List String → (String → List Commit) → (String → List Commit)
  | [], acc => acc
  | f :: fs, acc =>
    match extract_product_from_path f tracked with
    | some p =>
      if c ∈ acc p then add_commit_for_files tracked c fs acc
      else add_commit_for_files tracked c fs (updateMap acc p (acc p ++ [c]))
    | none => add_commit_for_files tracked c fs acc

/-- The outer loop over commits: a commit is skipped when the
include-trivial flag is not set and its subject matches a trivial
pattern; otherwise its changed files are classified. -/
def build_loop (include_trivial : Bool) (tracked : List (String × String))
    (filesOf : String → List String) :
    List Commit → (String → List Commit) → (String → List Commit)
  | [], acc => acc
  | c :: cs, acc =>
    if !include_trivial && is_trivial_change c.subject then
      build_loop include_trivial tracked filesOf cs acc
    else
      build_loop include_trivial tracked filesOf cs
        (add_commit_for_files tracked c (filesOf c.hash) acc)

/-- The per-product change-set map built by `main`, with the external
`get_changed_files` query abstracted as `filesOf`. -/
def build_commits_by_product (include_trivial : Bool) (tracked : List (String × String))
    (commits : List Commit) (filesOf : String → List String) : String → List Commit :=
  build_loop include_trivial tracked filesOf commits (fun _ => [])

/-- Specification-side definition for the refinement in C8, following the
words of the spec: with the include-trivial flag set, no commit is
filtered out, so every commit goes through file classification. -/
def build_all_loop (tracked : List (String × String)) (filesOf : String → List String) :
    List Commit → (String → List Commit) → (String → List Commit)
  | [], acc => acc
  | c :: cs, acc =>
    build_all_loop tracked filesOf cs (add_commit_for_files tracked c (filesOf c.hash) acc)

/-- Specification-side definition: the change-set map with no trivial
filtering at all. -/
def build_all_commits_by_product (tracked : List (String × String))
    (commits : List Commit) (filesOf : String → List String) : String → List Commit :=
  build_all_loop tracked filesOf commits (fun _ => [])

/-! ## Frontmatter parsing and the changelog scan -/

/-- Quote stripping for a title value: surrounding double quotes or
surrounding single quotes are removed (Python slices `[1:-1]`). -/
def stripTitleQuotes (v : List Char) : List Char :=
  if ['"'].isPrefixOf v ∧ ['"'].isSuffixOf v then (v.drop 1).dropLast
  else if [Char.ofNat 39].isPrefixOf v ∧ [Char.ofNat 39].isSuffixOf v then (v.drop 1).dropLast
  else v

/-- The line loop of `parse_changelog_frontmatter`: the header region is
delimited by lines that strip to `---`; within it, `title:` and `date:`
lines are extracted (the key is removed with `str.replace`, the value
stripped, and quotes removed from the title). -/
def fm_loop : List (List Char) → Bool → Option (List Char) → Option (List Char) →
    Option (List Char) × Option (List Char)
  | [], _, t, d => (t, d)
  | l :: ls, in_fm, t, d =>
    if trimL l = ("---").data then
      if in_fm then (t, d)
      else fm_loop ls true t d
    else if in_fm then
      if ("title:").data.isPrefixOf l then
        fm_loop ls in_fm (some (stripTitleQuotes (trimL (replaceAll ("title:").data [] l)))) d
      else if ("date:").data.isPrefixOf l then
        fm_loop ls in_fm t (some (trimL (replaceAll ("date:").data [] l)))
      else fm_loop ls in_fm t d
    else fm_loop ls in_fm t d

/-- `parse_changelog_frontmatter`: reads the first 2000 characters of the
file; a missing file or any read failure yields `(none, none)` (modelled
by a `none` file content). -/
def parse_changelog_frontmatter (content : Option String) : Option String × Option String :=
  match content with
  | none => (none, none)
  | some s =>
    let r := fm_loop (splitSep '\n' (s.data.take 2000)) false none none
    (r.1.map String.mk, r.2.map String.mk)

/-- The title stored for an entry: `title or filename` (a missing or
empty title falls back to the filename, extension included). -/
def entryTitle (t : Option String) (filename : String) : String :=
  match t with
  | some s => if s = "" then filename else s
  | none => filename

/-- The entry record the scan stores for directory `dirname` and file
`filename` with parsed title `t` and date `d`. -/
def mk_changelog_entry (t : Option String) (d : String) (dirname filename : String) :
    ChangelogEntry :=
  ⟨entryTitle t filename,
   changelog_file_to_url ("src/content/changelog/" ++ dirname ++ "/" ++ filename),
   d,
   "src/content/changelog/" ++ dirname ++ "/" ++ filename⟩

/-- Per-file step of the changelog scan: only `.mdx` files are
considered, an entry with no parsed date (or an empty one — Python
`if not entry_date`) is dropped, and an entry is kept iff its frontmatter
date lies within the inclusive range under string comparison. -/
def mdx_entry (start_d end_d : String) (fileContent : String → Option String)
    (dirname filename : String) : Option ChangelogEntry :=
  if pyEndsWith filename ".mdx" then
    match parse_changelog_frontmatter
        (fileContent ("src/content/changelog/" ++ dirname ++ "/" ++ filename)) with
    | (t, some d) =>
      if d ≠ "" ∧ strLeB start_d d = true ∧ strLeB d end_d = true then
        some (mk_changelog_entry t d dirname filename)
      else none
    | (_, none) => none
  else none

/-- All entries collected from one changelog subdirectory, in file order
(the per-file appends of the source are grouped per directory, which
yields the same list). -/
def entriesOfDir (start_d end_d : String) (fileContent : String → Option String)
    (dirname : String) (files : List String) : List ChangelogEntry :=
  files.filterMap (mdx_entry start_d end_d fileContent dirname)

/-- The directory loop of `get_changelog_entries_in_date_range`: each
subdirectory is aliased to a docs directory, looked up among the tracked
products (an unmapped or falsy product name skips the directory), and its
qualifying entries are appended to that product. -/
def scan_loop (start_d end_d : String) (tracked : List (String × String))
    (fileContent : String → Option String) :
    List (String × List String) → (String → List ChangelogEntry) →
    (String → List ChangelogEntry)
  | [], acc => acc
  | (dirname, files) :: rest, acc =>
    match List.lookup ((List.lookup dirname CHANGELOG_TO_DOCS_MAP).getD dirname) tracked with
    | some pname =>
      if pname = "" then scan_loop start_d end_d tracked fileContent rest acc
      else
        scan_loop start_d end_d tracked fileContent rest
          (updateMap acc pname (acc pname ++ entriesOfDir start_d end_d fileContent dirname files))
    | none => scan_loop start_d end_d tracked fileContent rest acc

/-- Date-descending order used for the final per-product sort
(`sort(key=date, reverse=True)`, a stable sort). -/
def entryDateDesc (a b : ChangelogEntry) : Prop :=
  strLeB b.date a.date = true

instance : DecidableRel entryDateDesc :=
  fun a b => inferInstanceAs (Decidable (strLeB b.date a.date = true))

/-- `get_changelog_entries_in_date_range`, with the filesystem abstracted:
`dirs` lists the changelog subdirectories with their contained filenames
(in `os.listdir` order), and `fileContent` gives each path its readable
content, if any.  Each product list is finally sorted by date
descending. -/
def get_changelog_entries_in_date_range (start_d end_d : String)
    (tracked : List (String × String)) (dirs : List (String × List String))
    (fileContent : String → Option String) : String → List ChangelogEntry :=
  fun p =>
    List.insertionSort entryDateDesc
      (scan_loop start_d end_d tracked fileContent dirs (fun _ => []) p)

/-- The invariant every stored changelog entry satisfies: its date is the
parsed frontmatter date of its own file, non-empty, and within the
inclusive range. -/
def entryInvariant (start_d end_d : String) (fileContent : String → Option String)
    (e : ChangelogEntry) : Prop :=
  strLeB start_d e.date = true ∧ strLeB e.date end_d = true ∧
    (parse_changelog_frontmatter (fileContent e.file)).2 = some e.date ∧ e.date ≠ ""

/-! ## Date-range computation in `main`
Models the proleptic Gregorian day arithmetic of Python `datetime` /
`timedelta` that `main` uses: `--month YYYY-MM` is parsed by
`strptime(month, '%Y-%m')` to the first of that month, then
`(start + timedelta(days=32)).replace(day=1) - timedelta(days=1)`; the
default is `today.replace(day=1) - timedelta(days=1)` and its
`replace(day=1)`. -/

structure Date where
  y : Nat
  m : Nat
  d : Nat
deriving DecidableEq, Repr

def isLeap (y : Nat) : Bool :=
  (y % 4 = 0 && y % 100 ≠ 0) || y % 400 = 0

def daysInMonth (y m : Nat) : Nat :=
  if m = 2 then (if isLeap y then 29 else 28)
  else if m = 4 ∨ m = 6 ∨ m = 9 ∨ m = 11 then 30
  else 31

/-- Adding one calendar day. -/
def nextDay : Date → Date
  | ⟨y, m, d⟩ =>
    if d < daysInMonth y m then ⟨y, m, d + 1⟩
    else if m = 12 then ⟨y + 1, 1, 1⟩
    else ⟨y, m + 1, 1⟩

/-- `timedelta(days=n)` addition. -/
def addDays (dt : Date) : Nat → Date
  | 0 => dt
  | n + 1 => nextDay (addDays dt n)

/-- Subtracting one calendar day (`- timedelta(days=1)`). -/
def prevDay : Date → Date
  | ⟨y, m, d⟩ =>
    if 1 < d then ⟨y, m, d - 1⟩
    else if m = 1 then ⟨y - 1, 12, 31⟩
    else ⟨y, m - 1, daysInMonth y (m - 1)⟩

/-- `.replace(day=1)`. -/
def replaceDay1 : Date → Date
  | ⟨y, m, _⟩ => ⟨y, m, 1⟩

/-- The date range computed by `main` for `--month` year `y`, month `m`. -/
def month_range (y m : Nat) : Date × Date :=
  (⟨y, m, 1⟩, prevDay (replaceDay1 (addDays ⟨y, m, 1⟩ 32)))

/-- The default date range computed by `main` from the current date. -/
def default_range (today : Date) : Date × Date :=
  (replaceDay1 (prevDay (replaceDay1 today)), prevDay (replaceDay1 today))

/-- The calendar month preceding month `m` of year `y`. -/
def prev_month (y m : Nat) : Nat × Nat :=
  if m = 1 then (y - 1, 12) else (y, m - 1)

/-! ## Summary generation (`generate_summary`, `get_file_sections`) -/

/-- `clean_commit_subject`: remove a trailing PR number
(regex removal of optional whitespace, an open parenthesis, a hash sign,
one or more digits, a close parenthesis and trailing whitespace, anchored
at the end) and strip the result. -/
def stripPRNumber (l : List Char) : List Char :=
  match (l.reverse.dropWhile pyIsSpace : List Char) with
  | ')' :: r2 =>
    if r2.takeWhile Char.isDigit ≠ [] then
      match (r2.dropWhile Char.isDigit : List Char) with
      | '#' :: '(' :: r4 => (r4.dropWhile pyIsSpace).reverse
      | _ => l
    else l
  | _ => l

def clean_commit_subject (subject : String) : String :=
  String.mk (trimL (stripPRNumber subject.data))

/-- Parse the piped `git show %s -- %s | grep | head -5` output of
`get_file_sections`: keep lines starting `+##` or `-##`, strip the
three-character marker and surrounding whitespace, and drop empty
extractions and deeper (`###`) headings. -/
def collect_sections (outLines : List (List Char)) : List String :=
  outLines.filterMap (fun l =>
    if ("+##").data.isPrefixOf l ∨ ("-##").data.isPrefixOf l then
      let sec := trimL (l.drop 3)
      if sec ≠ [] ∧ sec.head? ≠ some '#' then some (String.mk sec) else none
    else none)

/-- `get_file_sections`: collect the changed section headings of one file
in one commit, deduplicate via `list(set(sections))` — the enumeration
order of a Python `set` is an implementation artefact of the run, passed
here as the parameter `enum` — and keep at most 3. -/
def get_file_sections (enum : List String → List String) (output : String) : List String :=
  (enum (collect_sections (splitSep '\n' output.data))).take 3

/-- The up-to-3 file bullet lines of one commit: a file outside the URL
mapping produces no line; a file with extracted sections lists them after
the URL. -/
def render_commit_files (sectionsOf : String → String → List String) (chash : String) :
    List String → List String
  | [] => []
  | f :: fs =>
    (match file_to_url f with
     | some url =>
       if sectionsOf chash f ≠ [] then
         ["   - " ++ url ++ " - Updated: " ++ joinComma (sectionsOf chash f)]
       else ["   - " ++ url]
     | none => []) ++ render_commit_files sectionsOf chash fs

/-- One commit of one product: skipped when no changed file is a
documentation file; otherwise a summary line, at most 3 file bullets and
an overflow count line. -/
def render_commit (sectionsOf : String → String → List String)
    (filesOf : String → List String) (product : String) (c : Commit) : List String :=
  let doc_files := (filesOf c.hash).filter (fun f => pyStartsWith f "src/content/docs/")
  if doc_files = [] then []
  else
    ("\nUpdate to the " ++ product ++ " documentation: " ++ clean_commit_subject c.subject)
      :: (render_commit_files sectionsOf c.hash (doc_files.take 3)
          ++ (if 3 < doc_files.length then
                ["   - ... and " ++ toString (doc_files.length - 3) ++ " more files"]
              else []))

/-- Commits of one product, in discovery order. -/
def render_commits_list (sectionsOf : String → String → List String)
    (filesOf : String → List String) (product : String) : List Commit → List String
  | [] => []
  | c :: cs =>
    render_commit sectionsOf filesOf product c
      ++ render_commits_list sectionsOf filesOf product cs

/-- All products, already sorted. -/
def render_products (sectionsOf : String → String → List String)
    (filesOf : String → List String) : List (String × List Commit) → List String
  | [] => []
  | (product, commits) :: rest =>
    render_commits_list sectionsOf filesOf product commits
      ++ render_products sectionsOf filesOf rest

/-- Lexical order on product names, used for
`sorted(commits_by_product.items())` (dictionary keys are distinct, so
comparing keys alone reproduces the tuple sort). -/
def productKeyLe (a b : String × List Commit) : Prop :=
  strLeB a.1 b.1 = true

instance : DecidableRel productKeyLe :=
  fun a b => inferInstanceAs (Decidable (strLeB a.1 b.1 = true))

/-- The text assembly of `generate_summary`, generic in the per-file
section extraction used for the bullets. -/
def summary_core (sectionsOf : String → String → List String)
    (filesOf : String → List String)
    (commits_by_product : List (String × List Commit)) (month_name : String) : String :=
  joinLines (("# Documentation Updates - " ++ month_name ++ "\n")
    :: render_products sectionsOf filesOf (List.insertionSort productKeyLe commits_by_product))

/-- `generate_summary`, with the external collaborators abstracted:
`filesOf` is the `git diff-tree` file listing per commit, `showOut` the
piped `git show` output per commit and file, and `enum` the set
enumeration order used by `get_file_sections` in this run. -/
def generate_summary (enum : List String → List String)
    (filesOf : String → List String) (showOut : String → String → String)
    (commits_by_product : List (String × List Commit)) (month_name : String) : String :=
  summary_core (fun h f => get_file_sections enum (showOut h f)) filesOf
    commits_by_product month_name

/-- What `list(set(l))` guarantees: the result lists exactly the distinct
elements of `l`, in an order the language leaves unspecified (and which
varies between runs under hash randomization). -/
def ValidSetEnum (enum : List String → List String) : Prop :=
  ∀ l, (enum l).Nodup ∧ ∀ a, a ∈ enum l ↔ a ∈ l

/-- A git-log output batch containing a malformed middle line (fewer than
four fields), used to compare the two commit-listing loops. -/
def malformedBatch : String :=
  "h1|fix cache docs|2026-01-02 10:00:00 +0000|ann\nmalformed-line\nh2|update waf docs|2026-01-03 11:00:00 +0000|bob"

/-! ## Lemmas about the bounded split -/

theorem splitSepLim_zero (sep : Char) (l : List Char) :
    splitSepLim sep 0 l = [l] := by
  cases l <;> rfl

theorem splitSepLim_append (sep : Char) (h : List Char) (n : Nat) (t : List Char)
    (hh : sep ∉ h) :
    splitSepLim sep (n + 1) (h ++ sep :: t) = h :: splitSepLim sep n t := by
  induction h with
  | nil => simp [splitSepLim]
  | cons c h ih =>
    have hc : c ≠ sep := fun e => hh (e ▸ List.mem_cons_self c h)
    have ih' := ih (fun m => hh (List.mem_cons_of_mem c m))
    simp only [List.cons_append, splitSepLim, if_neg hc, List.append_eq, ih']

theorem data_append (a b : String) : (a ++ b).data = a.data ++ b.data := rfl

theorem mk_data (s : String) : String.mk s.data = s := by cases s; rfl

/-- C1 (counterexample): for the commit with subject `a|b` (containing the
field delimiter), date `2026-01-01 10:00:00 +0000` and author `ann`, the
bounded split of `get_commits_in_range` truncates the subject at the first
delimiter and shifts the remaining text into the date and author fields,
so the parsed record differs from the original commit. -/
theorem c1_counterexample :
    parse_log_line (format_log_line
        ⟨"h1", "a|b", "2026-01-01 10:00:00 +0000", "ann"⟩).data
      = some ⟨"h1", "a", "b", "2026-01-01 10:00:00 +0000|ann"⟩ ∧
    parse_log_line (format_log_line
        ⟨"h1", "a|b", "2026-01-01 10:00:00 +0000", "ann"⟩).data
      ≠ some ⟨"h1", "a|b", "2026-01-01 10:00:00 +0000", "ann"⟩ := by
  exact ⟨by decide, by decide⟩

/-- C1 (amended): for every git-log output line of the four-field form
hash|subject|committer-date|author in which the hash, subject and date
fields contain no `|` character, parsing in `get_commits_in_range` yields
the four fields verbatim; the bounded split count (3) preserves delimiter
characters occurring in the trailing author field only, so a `|` inside
the free-text subject is not protected (it truncates the subject and
shifts the date and author fields, as the counterexample shows). -/
theorem c1_amended (c : Commit) (h1 : '|' ∉ c.hash.data)
    (h2 : '|' ∉ c.subject.data) (h3 : '|' ∉ c.date.data) :
    parse_log_line (format_log_line c).data = some c := by
  obtain ⟨h, s, d, a⟩ := c
  have pb : ("|" : String).data = ['|'] := rfl
  have e : (format_log_line ⟨h, s, d, a⟩).data
      = h.data ++ '|' :: (s.data ++ '|' :: (d.data ++ '|' :: a.data)) := by
    simp [format_log_line, data_append, pb]
  rw [parse_log_line, e,
    splitSepLim_append '|' h.data 2 _ h1,
    splitSepLim_append '|' s.data 1 _ h2,
    splitSepLim_append '|' d.data 0 _ h3,
    splitSepLim_zero]

/-- Witness for `c1_amended` at a concrete commit whose author field
contains a `|` character: the hash, subject and date contain no delimiter
and the line round-trips, the author field included. -/
theorem c1_amended_witness :
    ('|' ∉ ("h1" : String).data ∧ '|' ∉ ("Fix docs" : String).data ∧
      '|' ∉ ("2026-01-02 10:00:00 +0000" : String).data) ∧
    parse_log_line (format_log_line
        ⟨"h1", "Fix docs", "2026-01-02 10:00:00 +0000", "Ann | Bob"⟩).data
      = some ⟨"h1", "Fix docs", "2026-01-02 10:00:00 +0000", "Ann | Bob"⟩ :=
  ⟨⟨by decide, by decide, by decide⟩,
    c1_amended ⟨"h1", "Fix docs", "2026-01-02 10:00:00 +0000", "Ann | Bob"⟩
      (by decide) (by decide) (by decide)⟩

/-- C2: on a batch whose middle line has fewer than four `|`-separated
fields, `get_changelog_commits_in_range` skips the malformed line and
still parses both well-formed lines, but `get_commits_in_range` raises an
uncaught `ValueError` from tuple unpacking (modelled by `none`), aborting
the whole run instead of skipping the line as the specification
requires. -/
theorem c2_code_bug_eval :
    get_changelog_commits_parse malformedBatch
      = [⟨"h1", "fix cache docs", "2026-01-02 10:00:00 +0000", "ann"⟩,
         ⟨"h2", "update waf docs", "2026-01-03 11:00:00 +0000", "bob"⟩] ∧
    get_commits_parse malformedBatch = none := by
  exact ⟨by decide, by decide⟩

/-- C5: `file_to_url` maps `src/content/docs/cache/foo/index.mdx` to
`https://developers.cloudflare.com/cache/foo/` and
`src/content/docs/cache/bar.md` to
`https://developers.cloudflare.com/cache/bar/` (root prefix stripped,
extension stripped, trailing index segment collapsed, base URL prefixed);
every path that does not start with `src/content/docs/` maps to none. -/
theorem c5_file_to_url :
    file_to_url "src/content/docs/cache/foo/index.mdx"
      = some "https://developers.cloudflare.com/cache/foo/" ∧
    file_to_url "src/content/docs/cache/bar.md"
      = some "https://developers.cloudflare.com/cache/bar/" ∧
    ∀ p : String, pyStartsWith p "src/content/docs/" = false → file_to_url p = none :=
  ⟨by decide, by decide, fun p h => by simp [file_to_url, h]⟩

/-- Witness for `c5_file_to_url` at the concrete non-documentation path
`README.md`. -/
theorem c5_file_to_url_witness :
    pyStartsWith "README.md" "src/content/docs/" = false ∧
    file_to_url "README.md" = none :=
  ⟨by decide, c5_file_to_url.2.2 "README.md" (by decide)⟩

/-- C6: `changelog_file_to_url` maps
`src/content/changelog/access/2026-01-19-Some.Entry.mdx` to
`https://developers.cloudflare.com/changelog/2026-01-19-someentry/`
(slug lowercased, dots removed, category directory dropped), while the
access to cloudflare-one alias is applied only by
`extract_changelog_product`, which classifies the same path as the
Cloudflare One product. -/
theorem c6_changelog_url :
    changelog_file_to_url "src/content/changelog/access/2026-01-19-Some.Entry.mdx"
      = some "https://developers.cloudflare.com/changelog/2026-01-19-someentry/" ∧
    extract_changelog_product "src/content/changelog/access/2026-01-19-Some.Entry.mdx"
        (get_tracked_products none)
      = some "Cloudflare One" :=
  ⟨by decide, by decide⟩

/-- Every entry produced from one directory satisfies the scan
invariant: its stored date is its own parsed frontmatter date, non-empty
and inside the inclusive range. -/
theorem mem_entriesOfDir_invariant (start_d end_d : String) (fc : String → Option String)
    (dirname : String) (files : List String) (e : ChangelogEntry)
    (he : e ∈ entriesOfDir start_d end_d fc dirname files) :
    entryInvariant start_d end_d fc e := by
  obtain ⟨fn, hfn, hmk⟩ := List.mem_filterMap.1 he
  unfold mdx_entry at hmk
  by_cases hext : pyEndsWith fn ".mdx" = true
  · rw [if_pos hext] at hmk
    rcases hparse : parse_changelog_frontmatter
        (fc ("src/content/changelog/" ++ dirname ++ "/" ++ fn)) with ⟨t, dopt⟩
    rw [hparse] at hmk
    cases dopt with
    | none => simp at hmk
    | some d =>
      by_cases hcond : d ≠ "" ∧ strLeB start_d d = true ∧ strLeB d end_d = true
      · simp only [if_pos hcond] at hmk
        have hme : mk_changelog_entry t d dirname fn = e := Option.some.inj hmk
        subst hme
        exact ⟨hcond.2.1, hcond.2.2, by simp only [mk_changelog_entry, hparse], hcond.1⟩
      · simp only [if_neg hcond] at hmk
        exact Option.noConfusion hmk
  · rw [if_neg hext] at hmk
    simp at hmk

/-- The directory loop preserves the entry invariant. -/
theorem scan_loop_inv (start_d end_d : String) (tracked : List (String × String))
    (fc : String → Option String) (dirs : List (String × List String)) :
    ∀ (acc : String → List ChangelogEntry),
    (∀ q x, x ∈ acc q → entryInvariant start_d end_d fc x) →
    ∀ p e, e ∈ scan_loop start_d end_d tracked fc dirs acc p →
    entryInvariant start_d end_d fc e := by
  induction dirs with
  | nil => exact fun acc hacc p e he => hacc p e he
  | cons df rest ih =>
    intro acc hacc p e he
    obtain ⟨dirname, files⟩ := df
    simp only [scan_loop] at he
    cases hl : List.lookup ((List.lookup dirname CHANGELOG_TO_DOCS_MAP).getD dirname) tracked with
    | none =>
      rw [hl] at he
      exact ih acc hacc p e he
    | some pname =>
      rw [hl] at he
      by_cases hpe : pname = ""
      · simp only [if_pos hpe] at he
        exact ih acc hacc p e he
      · simp only [if_neg hpe] at he
        refine ih _ ?_ p e he
        intro q x hx
        unfold updateMap at hx
        by_cases hq : q = pname
        · rw [if_pos hq] at hx
          rcases List.mem_append.1 hx with h | h
          · exact hacc pname x h
          · exact mem_entriesOfDir_invariant start_d end_d fc dirname files x h
        · rw [if_neg hq] at hx
          exact hacc q x hx

/-- The directory loop only ever appends: accumulator members stay. -/
theorem scan_loop_grows (start_d end_d : String) (tracked : List (String × String))
    (fc : String → Option String) (dirs : List (String × List String)) :
    ∀ acc p x, x ∈ acc p → x ∈ scan_loop start_d end_d tracked fc dirs acc p := by
  induction dirs with
  | nil => exact fun acc p x hx => hx
  | cons df rest ih =>
    intro acc p x hx
    obtain ⟨dirname, files⟩ := df
    simp only [scan_loop]
    cases hl : List.lookup ((List.lookup dirname CHANGELOG_TO_DOCS_MAP).getD dirname) tracked with
    | none => exact ih acc p x hx
    | some pname =>
      by_cases hpe : pname = ""
      · simp only [if_pos hpe]
        exact ih acc p x hx
      · simp only [if_neg hpe]
        refine ih _ p x ?_
        unfold updateMap
        by_cases hq : p = pname
        · rw [if_pos hq]
          exact List.mem_append_left _ (hq ▸ hx)
        · rw [if_neg hq]
          exact hx

/-- An entry collected from a directory that is listed and maps to a
tracked product ends up in that product's list. -/
theorem scan_loop_add (start_d end_d : String) (tracked : List (String × String))
    (fc : String → Option String) (dirname : String) (files : List String)
    (p : String) (e : ChangelogEntry)
    (hp : List.lookup ((List.lookup dirname CHANGELOG_TO_DOCS_MAP).getD dirname) tracked = some p)
    (hpe : p ≠ "")
    (he : e ∈ entriesOfDir start_d end_d fc dirname files) :
    ∀ (dirs : List (String × List String)) (acc : String → List ChangelogEntry),
    (dirname, files) ∈ dirs →
    e ∈ scan_loop start_d end_d tracked fc dirs acc p := by
  intro dirs
  induction dirs with
  | nil =>
    intro acc h
    cases h
  | cons df rest ih =>
    intro acc hdir
    rcases List.mem_cons.1 hdir with heq | hmem
    · subst heq
      simp only [scan_loop, hp, if_neg hpe]
      refine scan_loop_grows start_d end_d tracked fc rest _ p e ?_
      unfold updateMap
      rw [if_pos rfl]
      exact List.mem_append_right _ he
    · obtain ⟨dirname', files'⟩ := df
      simp only [scan_loop]
      cases hl : List.lookup ((List.lookup dirname' CHANGELOG_TO_DOCS_MAP).getD dirname') tracked with
      | none => exact ih _ hmem
      | some pname =>
        by_cases hpe' : pname = ""
        · simp only [if_pos hpe']
          exact ih _ hmem
        · simp only [if_neg hpe']
          exact ih _ hmem

/-- For one product key, the file loop of a single commit either leaves
that product unchanged or appends the commit exactly once at the end, and
it never re-appends a commit already present. -/
theorem add_mem_cases (tracked : List (String × String)) (c : Commit) (fs : List String) :
    ∀ (acc : String → List Commit) (p : String),
    (c ∈ acc p → add_commit_for_files tracked c fs acc p = acc p) ∧
    (add_commit_for_files tracked c fs acc p = acc p ∨
      add_commit_for_files tracked c fs acc p = acc p ++ [c]) := by
  induction fs with
  | nil => exact fun acc p => ⟨fun _ => rfl, Or.inl rfl⟩
  | cons f fs ih =>
    intro acc p
    simp only [add_commit_for_files]
    cases hx : extract_product_from_path f tracked with
    | none => exact ih acc p
    | some p' =>
      by_cases hc : c ∈ acc p'
      · simp only [if_pos hc]
        exact ih acc p
      · simp only [if_neg hc]
        by_cases hpp : p = p'
        · subst hpp
          have hup : updateMap acc p (acc p ++ [c]) p = acc p ++ [c] := by
            simp [updateMap]
          constructor
          · exact fun hmem => absurd hmem hc
          · have hin : c ∈ updateMap acc p (acc p ++ [c]) p := by simp [updateMap]
            have h1 := (ih (updateMap acc p (acc p ++ [c])) p).1 hin
            rw [h1, hup]
            exact Or.inr rfl
        · have hup : updateMap acc p' (acc p' ++ [c]) p = acc p := by
            simp [updateMap, hpp]
          have h2 := ih (updateMap acc p' (acc p' ++ [c])) p
          rw [hup] at h2
          exact h2

/-- The outer loop only ever appends commits to a product list, and the
appended commits form a sublist of the processed commits (each commit can
be appended at most once, during its own iteration). -/
theorem build_loop_sublist (flag : Bool) (tracked : List (String × String))
    (filesOf : String → List String) (cs : List Commit) :
    ∀ (acc : String → List Commit) (p : String),
    ∃ l, build_loop flag tracked filesOf cs acc p = acc p ++ l ∧ l.Sublist cs := by
  induction cs with
  | nil => exact fun acc p => ⟨[], by simp [build_loop], List.nil_sublist _⟩
  | cons c cs ih =>
    intro acc p
    simp only [build_loop]
    by_cases hskip : (!flag && is_trivial_change c.subject) = true
    · rw [if_pos hskip]
      obtain ⟨l, hl, hs⟩ := ih acc p
      exact ⟨l, hl, hs.cons c⟩
    · rw [if_neg hskip]
      obtain ⟨l, hl, hs⟩ := ih (add_commit_for_files tracked c (filesOf c.hash) acc) p
      rcases (add_mem_cases tracked c (filesOf c.hash) acc p).2 with h | h
      · rw [h] at hl
        exact ⟨l, hl, hs.cons c⟩
      · rw [h, List.append_assoc] at hl
        exact ⟨c :: l, hl, hs.cons₂ c⟩

/-- Every commit found in the map built with the flag unset has a
non-trivial subject (beyond those already in the accumulator). -/
theorem build_loop_mem_nontrivial (tracked : List (String × String))
    (filesOf : String → List String) (cs : List Commit) :
    ∀ (acc : String → List Commit) (p : String) (x : Commit),
    x ∈ build_loop false tracked filesOf cs acc p →
    x ∈ acc p ∨ is_trivial_change x.subject = false := by
  induction cs with
  | nil => exact fun acc p x hx => Or.inl hx
  | cons c cs ih =>
    intro acc p x hx
    simp only [build_loop, Bool.not_false, Bool.true_and] at hx
    by_cases htriv : is_trivial_change c.subject = true
    · rw [if_pos htriv] at hx
      exact ih acc p x hx
    · rw [if_neg htriv] at hx
      rcases ih _ p x hx with hmem | hnt
      · rcases (add_mem_cases tracked c (filesOf c.hash) acc p).2 with h | h
        · rw [h] at hmem
          exact Or.inl hmem
        · rw [h] at hmem
          rcases List.mem_append.1 hmem with hm | hm
          · exact Or.inl hm
          · have hxc : x = c := by simpa using hm
            subst hxc
            exact Or.inr (Bool.not_eq_true _ ▸ by simpa using htriv)
      · exact Or.inr hnt

/-- With the flag set, the loop is the unfiltered loop. -/
theorem build_loop_true_eq (tracked : List (String × String))
    (filesOf : String → List String) (cs : List Commit) :
    ∀ acc, build_loop true tracked filesOf cs acc = build_all_loop tracked filesOf cs acc := by
  induction cs with
  | nil => exact fun acc => rfl
  | cons c cs ih =>
    intro acc
    simp only [build_loop, build_all_loop, Bool.not_true, Bool.false_and, if_neg]
    exact ih _

/-- C8: a commit whose subject matches a trivial pattern
(case-insensitively) is excluded from every product list of the report
map when the include-trivial flag is not set — whatever significant
patterns it may also match, since the filter consults only
`is_trivial_change`; and with the flag set, the map is exactly the
unfiltered map, so such commits are included. -/
theorem c8_trivial_filter (tracked : List (String × String)) (commits : List Commit)
    (filesOf : String → List String) (c : Commit)
    (ht : is_trivial_change c.subject = true) :
    (∀ p, c ∉ build_commits_by_product false tracked commits filesOf p) ∧
    build_commits_by_product true tracked commits filesOf
      = build_all_commits_by_product tracked commits filesOf := by
  constructor
  · intro p hmem
    rcases build_loop_mem_nontrivial tracked filesOf commits (fun _ => []) p c hmem with
      h | h
    · simp at h
    · rw [ht] at h
      cases h
  · exact build_loop_true_eq tracked filesOf commits _

/-- Witness for `c8_trivial_filter` at a commit whose subject matches both
a trivial pattern (style) and significant patterns (major, release): with
the flag unset it is excluded from the Cache product list; with the flag
set the map equals the unfiltered map. -/
theorem c8_trivial_filter_witness :
    is_trivial_change "Major style release" = true ∧
    is_significant_change "Major style release" = true ∧
    (⟨"h1", "Major style release", "2026-01-02", "ann"⟩ : Commit) ∉
      build_commits_by_product false [("cache", "Cache")]
        [⟨"h1", "Major style release", "2026-01-02", "ann"⟩]
        (fun _ => ["src/content/docs/cache/a.md"]) "Cache" ∧
    build_commits_by_product true [("cache", "Cache")]
        [⟨"h1", "Major style release", "2026-01-02", "ann"⟩]
        (fun _ => ["src/content/docs/cache/a.md"])
      = build_all_commits_by_product [("cache", "Cache")]
        [⟨"h1", "Major style release", "2026-01-02", "ann"⟩]
        (fun _ => ["src/content/docs/cache/a.md"]) :=
  ⟨by decide, by decide,
    (c8_trivial_filter [("cache", "Cache")]
      [⟨"h1", "Major style release", "2026-01-02", "ann"⟩]
      (fun _ => ["src/content/docs/cache/a.md"])
      ⟨"h1", "Major style release", "2026-01-02", "ann"⟩ (by decide)).1 "Cache",
    (c8_trivial_filter [("cache", "Cache")]
      [⟨"h1", "Major style release", "2026-01-02", "ann"⟩]
      (fun _ => ["src/content/docs/cache/a.md"])
      ⟨"h1", "Major style release", "2026-01-02", "ann"⟩ (by decide)).2⟩

/-- C9: invariant of the per-product change-set map built by the main
filtering loop — provided the input commits have pairwise distinct hashes
(git lists each commit once), every product list is a sublist of the
input commit sequence (hence in discovery order, each commit first
encountered while iterating commits and their changed files) and carries
no duplicate hashes. -/
theorem c9_change_set_invariant (flag : Bool) (tracked : List (String × String))
    (commits : List Commit) (filesOf : String → List String)
    (hn : (commits.map Commit.hash).Nodup) (p : String) :
    (build_commits_by_product flag tracked commits filesOf p).Sublist commits ∧
    ((build_commits_by_product flag tracked commits filesOf p).map Commit.hash).Nodup := by
  obtain ⟨l, hl, hs⟩ := build_loop_sublist flag tracked filesOf commits (fun _ => []) p
  have he : build_commits_by_product flag tracked commits filesOf p = l := by
    simpa [build_commits_by_product] using hl
  rw [he]
  exact ⟨hs, List.Nodup.sublist (hs.map Commit.hash) hn⟩

/-- Witness for `c9_change_set_invariant` on two concrete commits with
distinct hashes, both touching the Cache product. -/
theorem c9_change_set_invariant_witness :
    (([⟨"h1", "Update cache docs", "2026-01-02", "ann"⟩,
       ⟨"h2", "More cache docs", "2026-01-03", "bob"⟩] : List Commit).map Commit.hash).Nodup ∧
    ((build_commits_by_product false [("cache", "Cache")]
        [⟨"h1", "Update cache docs", "2026-01-02", "ann"⟩,
         ⟨"h2", "More cache docs", "2026-01-03", "bob"⟩]
        (fun _ => ["src/content/docs/cache/a.md"]) "Cache").Sublist
      [⟨"h1", "Update cache docs", "2026-01-02", "ann"⟩,
       ⟨"h2", "More cache docs", "2026-01-03", "bob"⟩] ∧
     ((build_commits_by_product false [("cache", "Cache")]
        [⟨"h1", "Update cache docs", "2026-01-02", "ann"⟩,
         ⟨"h2", "More cache docs", "2026-01-03", "bob"⟩]
        (fun _ => ["src/content/docs/cache/a.md"]) "Cache").map Commit.hash).Nodup) :=
  ⟨by decide,
    c9_change_set_invariant false [("cache", "Cache")]
      [⟨"h1", "Update cache docs", "2026-01-02", "ann"⟩,
       ⟨"h2", "More cache docs", "2026-01-03", "bob"⟩]
      (fun _ => ["src/content/docs/cache/a.md"]) (by decide) "Cache"⟩

/-- C4: for a changelog file with a parsed (non-empty) frontmatter date,
in a listed subdirectory that maps to a tracked product, the produced
entry is in that product's changelog list if and only if
start_date less-or-equal date less-or-equal end_date under lexical string
comparison, inclusive at both bounds. -/
theorem c4_changelog_date_filter (start_d end_d : String) (tracked : List (String × String))
    (dirs : List (String × List String)) (fc : String → Option String)
    (dirname : String) (files : List String) (filename : String) (p : String)
    (t : Option String) (d : String)
    (hdir : (dirname, files) ∈ dirs) (hfile : filename ∈ files)
    (hext : pyEndsWith filename ".mdx" = true)
    (hp : List.lookup ((List.lookup dirname CHANGELOG_TO_DOCS_MAP).getD dirname) tracked
      = some p)
    (hpe : p ≠ "")
    (hfm : parse_changelog_frontmatter
        (fc ("src/content/changelog/" ++ dirname ++ "/" ++ filename)) = (t, some d))
    (hd : d ≠ "") :
    mk_changelog_entry t d dirname filename ∈
        get_changelog_entries_in_date_range start_d end_d tracked dirs fc p
      ↔ (strLeB start_d d = true ∧ strLeB d end_d = true) := by
  unfold get_changelog_entries_in_date_range
  rw [(List.perm_insertionSort entryDateDesc _).mem_iff]
  constructor
  · intro hmem
    have hinv := scan_loop_inv start_d end_d tracked fc dirs (fun _ => [])
      (fun q x hx => absurd hx (List.not_mem_nil x)) p _ hmem
    exact ⟨hinv.1, hinv.2.1⟩
  · intro hrange
    refine scan_loop_add start_d end_d tracked fc dirname files p _ hp hpe ?_ dirs
      (fun _ => []) hdir
    refine List.mem_filterMap.2 ⟨filename, hfile, ?_⟩
    have hcond : d ≠ "" ∧ strLeB start_d d = true ∧ strLeB d end_d = true :=
      ⟨hd, hrange.1, hrange.2⟩
    unfold mdx_entry
    rw [if_pos hext]
    simp only [hfm, if_pos hcond]

/-- Witness for `c4_changelog_date_filter`: with range
2026-01-01..2026-01-31, an access changelog entry dated 2026-01-15 is
included in the Cloudflare One list. -/
theorem c4_changelog_date_filter_witness :
    (("access", ["2026-01-15-entry.mdx"]) ∈ [("access", ["2026-01-15-entry.mdx"])] ∧
     "2026-01-15-entry.mdx" ∈ ["2026-01-15-entry.mdx"] ∧
     pyEndsWith "2026-01-15-entry.mdx" ".mdx" = true ∧
     List.lookup ((List.lookup "access" CHANGELOG_TO_DOCS_MAP).getD "access")
        [("cloudflare-one", "Cloudflare One")] = some "Cloudflare One" ∧
     parse_changelog_frontmatter
        ((fun path => if path = "src/content/changelog/access/2026-01-15-entry.mdx"
            then some "---\ntitle: Entry\ndate: 2026-01-15\n---\n" else none)
          ("src/content/changelog/" ++ "access" ++ "/" ++ "2026-01-15-entry.mdx"))
        = (some "Entry", some "2026-01-15") ∧
     strLeB "2026-01-01" "2026-01-15" = true ∧ strLeB "2026-01-15" "2026-01-31" = true) ∧
    mk_changelog_entry (some "Entry") "2026-01-15" "access" "2026-01-15-entry.mdx" ∈
      get_changelog_entries_in_date_range "2026-01-01" "2026-01-31"
        [("cloudflare-one", "Cloudflare One")] [("access", ["2026-01-15-entry.mdx"])]
        (fun path => if path = "src/content/changelog/access/2026-01-15-entry.mdx"
          then some "---\ntitle: Entry\ndate: 2026-01-15\n---\n" else none)
        "Cloudflare One" :=
  ⟨⟨by decide, by decide, by decide, by decide, by decide, by decide, by decide⟩,
    (c4_changelog_date_filter "2026-01-01" "2026-01-31"
      [("cloudflare-one", "Cloudflare One")] [("access", ["2026-01-15-entry.mdx"])]
      (fun path => if path = "src/content/changelog/access/2026-01-15-entry.mdx"
        then some "---\ntitle: Entry\ndate: 2026-01-15\n---\n" else none)
      "access" ["2026-01-15-entry.mdx"] "2026-01-15-entry.mdx" "Cloudflare One"
      (some "Entry") "2026-01-15"
      (by decide) (by decide) (by decide) (by decide) (by decide) (by decide)
      (by decide)).mpr (by decide)⟩

/-- C10: a changelog file whose frontmatter yields an in-range date but
no title is still included, with the filename (extension included) stored
in place of the missing title; and a file with no parseable frontmatter
date contributes no entry to any product list. -/
theorem c10_missing_title_missing_date (start_d end_d : String)
    (tracked : List (String × String)) (dirs : List (String × List String))
    (fc : String → Option String) (dirname : String) (files : List String)
    (filename : String) (p : String) (d : String)
    (hdir : (dirname, files) ∈ dirs) (hfile : filename ∈ files)
    (hext : pyEndsWith filename ".mdx" = true)
    (hp : List.lookup ((List.lookup dirname CHANGELOG_TO_DOCS_MAP).getD dirname) tracked
      = some p)
    (hpe : p ≠ "")
    (hfm : parse_changelog_frontmatter
        (fc ("src/content/changelog/" ++ dirname ++ "/" ++ filename)) = (none, some d))
    (hd : d ≠ "")
    (hrange : strLeB start_d d = true ∧ strLeB d end_d = true)
    (path2 : String)
    (hfm2 : (parse_changelog_frontmatter (fc path2)).2 = none) :
    (mk_changelog_entry none d dirname filename ∈
        get_changelog_entries_in_date_range start_d end_d tracked dirs fc p ∧
     (mk_changelog_entry none d dirname filename).title = filename) ∧
    ∀ q e, e ∈ get_changelog_entries_in_date_range start_d end_d tracked dirs fc q →
      e.file ≠ path2 := by
  constructor
  · constructor
    · unfold get_changelog_entries_in_date_range
      rw [(List.perm_insertionSort entryDateDesc _).mem_iff]
      refine scan_loop_add start_d end_d tracked fc dirname files p _ hp hpe ?_ dirs
        (fun _ => []) hdir
      refine List.mem_filterMap.2 ⟨filename, hfile, ?_⟩
      have hcond : d ≠ "" ∧ strLeB start_d d = true ∧ strLeB d end_d = true :=
        ⟨hd, hrange.1, hrange.2⟩
      unfold mdx_entry
      rw [if_pos hext]
      simp only [hfm, if_pos hcond]
    · rfl
  · intro q e hq heq
    unfold get_changelog_entries_in_date_range at hq
    rw [(List.perm_insertionSort entryDateDesc _).mem_iff] at hq
    have hinv := scan_loop_inv start_d end_d tracked fc dirs (fun _ => [])
      (fun q x hx => absurd hx (List.not_mem_nil x)) q e hq
    have hdate := hinv.2.2.1
    rw [heq, hfm2] at hdate
    exact Option.noConfusion hdate

/-- Witness for `c10_missing_title_missing_date`: a title-less dated entry
is included under its filename, and a date-less file is excluded from
every product list. -/
theorem c10_missing_title_missing_date_witness :
    (parse_changelog_frontmatter
        ((fun path =>
          if path = "src/content/changelog/access/2026-01-15-untitled.mdx"
            then some "---\ndate: 2026-01-15\n---\n"
          else if path = "src/content/changelog/access/nodate.mdx"
            then some "---\ntitle: X\n---\n"
          else none)
          ("src/content/changelog/" ++ "access" ++ "/" ++ "2026-01-15-untitled.mdx"))
        = (none, some "2026-01-15") ∧
     (parse_changelog_frontmatter
        ((fun path =>
          if path = "src/content/changelog/access/2026-01-15-untitled.mdx"
            then some "---\ndate: 2026-01-15\n---\n"
          else if path = "src/content/changelog/access/nodate.mdx"
            then some "---\ntitle: X\n---\n"
          else none)
          "src/content/changelog/access/nodate.mdx")).2 = none) ∧
    ((mk_changelog_entry none "2026-01-15" "access" "2026-01-15-untitled.mdx" ∈
        get_changelog_entries_in_date_range "2026-01-01" "2026-01-31"
          [("cloudflare-one", "Cloudflare One")]
          [("access", ["2026-01-15-untitled.mdx", "nodate.mdx"])]
          (fun path =>
            if path = "src/content/changelog/access/2026-01-15-untitled.mdx"
              then some "---\ndate: 2026-01-15\n---\n"
            else if path = "src/content/changelog/access/nodate.mdx"
              then some "---\ntitle: X\n---\n"
            else none)
          "Cloudflare One" ∧
      (mk_changelog_entry none "2026-01-15" "access" "2026-01-15-untitled.mdx").title
        = "2026-01-15-untitled.mdx") ∧
     ∀ q e, e ∈ get_changelog_entries_in_date_range "2026-01-01" "2026-01-31"
          [("cloudflare-one", "Cloudflare One")]
          [("access", ["2026-01-15-untitled.mdx", "nodate.mdx"])]
          (fun path =>
            if path = "src/content/changelog/access/2026-01-15-untitled.mdx"
              then some "---\ndate: 2026-01-15\n---\n"
            else if path = "src/content/changelog/access/nodate.mdx"
              then some "---\ntitle: X\n---\n"
            else none)
          q →
        e.file ≠ "src/content/changelog/access/nodate.mdx") :=
  ⟨⟨by decide, by decide⟩,
    c10_missing_title_missing_date "2026-01-01" "2026-01-31"
      [("cloudflare-one", "Cloudflare One")]
      [("access", ["2026-01-15-untitled.mdx", "nodate.mdx"])]
      (fun path =>
        if path = "src/content/changelog/access/2026-01-15-untitled.mdx"
          then some "---\ndate: 2026-01-15\n---\n"
        else if path = "src/content/changelog/access/nodate.mdx"
          then some "---\ntitle: X\n---\n"
        else none)
      "access" ["2026-01-15-untitled.mdx", "nodate.mdx"] "2026-01-15-untitled.mdx"
      "Cloudflare One" "2026-01-15"
      (by decide) (by decide) (by decide) (by decide) (by decide) (by decide)
      (by decide) (by decide) "src/content/changelog/access/nodate.mdx" (by decide)⟩

theorem daysInMonth_ge (y m : Nat) : 28 ≤ daysInMonth y m := by
  unfold daysInMonth
  split
  · split <;> omega
  · split <;> omega

theorem daysInMonth_le (y m : Nat) : daysInMonth y m ≤ 31 := by
  unfold daysInMonth
  split
  · split <;> omega
  · split <;> omega

theorem addDays_add (dt : Date) (a b : Nat) :
    addDays dt (a + b) = addDays (addDays dt a) b := by
  induction b with
  | zero => rfl
  | succ b ih => rw [Nat.add_succ]; simp only [addDays, ih]

theorem addDays_one (dt : Date) : addDays dt 1 = nextDay dt := rfl

theorem addDays_within (y m : Nat) :
    ∀ n d : Nat, 1 ≤ d → d + n ≤ daysInMonth y m →
    addDays ⟨y, m, d⟩ n = ⟨y, m, d + n⟩ := by
  intro n
  induction n with
  | zero => intro d _ _; rfl
  | succ n ih =>
    intro d hd hle
    rw [addDays, ih d hd (by omega)]
    simp only [nextDay]
    rw [if_pos (by omega)]
    rfl

theorem nextDay_last (y m : Nat) :
    nextDay ⟨y, m, daysInMonth y m⟩ =
      if m = 12 then (⟨y + 1, 1, 1⟩ : Date) else ⟨y, m + 1, 1⟩ := by
  simp only [nextDay]
  rw [if_neg (by omega)]

theorem prevDay_first (y m : Nat) (hm : 2 ≤ m) :
    prevDay ⟨y, m, 1⟩ = ⟨y, m - 1, daysInMonth y (m - 1)⟩ := by
  simp only [prevDay]
  rw [if_neg (by omega), if_neg (by omega)]

/-- For a valid month, the `--month` range of `main` is the first through
the last day of that month. -/
theorem month_range_eq (y m : Nat) (h1 : 1 ≤ m) (h2 : m ≤ 12) :
    month_range y m = (⟨y, m, 1⟩, ⟨y, m, daysInMonth y m⟩) := by
  obtain ⟨k, hk⟩ : ∃ k, daysInMonth y m = k := ⟨_, rfl⟩
  have hk1 : 28 ≤ k := hk ▸ daysInMonth_ge y m
  have hk2 : k ≤ 31 := hk ▸ daysInMonth_le y m
  have hstep1 : addDays ⟨y, m, 1⟩ (k - 1) = ⟨y, m, k⟩ := by
    rw [addDays_within y m (k - 1) 1 le_rfl (by omega)]
    have e : 1 + (k - 1) = k := by omega
    rw [e]
  have h32 : (32 : Nat) = (k - 1) + (1 + (32 - k)) := by omega
  unfold month_range
  rw [hk, h32, addDays_add, hstep1, addDays_add _ 1 (32 - k), addDays_one]
  rw [show nextDay ⟨y, m, k⟩ =
      (if m = 12 then (⟨y + 1, 1, 1⟩ : Date) else ⟨y, m + 1, 1⟩) from hk ▸ nextDay_last y m]
  by_cases hm12 : m = 12
  · subst hm12
    rw [if_pos rfl]
    have hd12 : k = 31 := by
      rw [← hk]; simp [daysInMonth]
    subst hd12
    have e0 : (32 : Nat) - 31 = 1 := by omega
    rw [e0, addDays_one]
    have hd1 : daysInMonth (y + 1) 1 = 31 := by simp [daysInMonth]
    have e1 : nextDay ⟨y + 1, 1, 1⟩ = (⟨y + 1, 1, 2⟩ : Date) := by
      simp only [nextDay]
      rw [if_pos (by omega)]
    have e2 : replaceDay1 ⟨y + 1, 1, 2⟩ = (⟨y + 1, 1, 1⟩ : Date) := rfl
    have e3 : prevDay ⟨y + 1, 1, 1⟩ = (⟨y, 12, 31⟩ : Date) := by
      simp only [prevDay]
      rw [if_neg (by omega), if_pos trivial]
      have hy : y + 1 - 1 = y := by omega
      rw [hy]
    rw [e1, e2, e3]
  · rw [if_neg hm12]
    have hbound : 1 + (32 - k) ≤ daysInMonth y (m + 1) := by
      have := daysInMonth_ge y (m + 1)
      omega
    rw [addDays_within y (m + 1) (32 - k) 1 le_rfl hbound]
    simp only [replaceDay1]
    rw [prevDay_first y (m + 1) (by omega)]
    have e : m + 1 - 1 = m := by omega
    rw [e, hk]

/-- With `--month` absent, the range of `main` is the previous full
calendar month of the current date. -/
theorem default_range_eq (ty tm td : Nat) (h1 : 1 ≤ tm) (h2 : tm ≤ 12) :
    default_range ⟨ty, tm, td⟩ =
      (⟨(prev_month ty tm).1, (prev_month ty tm).2, 1⟩,
       ⟨(prev_month ty tm).1, (prev_month ty tm).2,
         daysInMonth (prev_month ty tm).1 (prev_month ty tm).2⟩) := by
  by_cases hm : tm = 1
  · subst hm
    have e1 : prevDay ⟨ty, 1, 1⟩ = (⟨ty - 1, 12, 31⟩ : Date) := by
      simp only [prevDay]
      rw [if_neg (by omega), if_pos trivial]
    have e2 : prev_month ty 1 = (ty - 1, 12) := by
      simp only [prev_month]
      rw [if_pos trivial]
    have e3 : daysInMonth (ty - 1) 12 = 31 := by simp [daysInMonth]
    unfold default_range
    simp only [replaceDay1]
    rw [e1]
    simp only [replaceDay1]
    rw [e2]
    simp [e3]
  · have e1 := prevDay_first ty tm (by omega)
    have e2 : prev_month ty tm = (ty, tm - 1) := by
      simp only [prev_month]
      rw [if_neg hm]
    unfold default_range
    simp only [replaceDay1]
    rw [e1]
    simp only [replaceDay1]
    rw [e2]

/-- C7: the `--month YYYY-MM` range runs from the first through the last
day of that month, correct for every month length (the 32-day jump,
first-of-month replacement and one-day step always land on the last day);
with `--month` absent the range is the previous full calendar month of
the current date. -/
theorem c7_date_range (y m ty tm td : Nat) (hm1 : 1 ≤ m) (hm2 : m ≤ 12)
    (htm1 : 1 ≤ tm) (htm2 : tm ≤ 12) :
    month_range y m = (⟨y, m, 1⟩, ⟨y, m, daysInMonth y m⟩) ∧
    default_range ⟨ty, tm, td⟩ =
      (⟨(prev_month ty tm).1, (prev_month ty tm).2, 1⟩,
       ⟨(prev_month ty tm).1, (prev_month ty tm).2,
         daysInMonth (prev_month ty tm).1 (prev_month ty tm).2⟩) :=
  ⟨month_range_eq y m hm1 hm2, default_range_eq ty tm td htm1 htm2⟩

/-- Witness for `c7_date_range`: February 2024 (a 29-day leap month) and,
for the default branch, a current date of 2026-03-15 giving the range
2026-02-01 through 2026-02-28. -/
theorem c7_date_range_witness :
    ((1 : Nat) ≤ 2 ∧ (2 : Nat) ≤ 12 ∧ (1 : Nat) ≤ 3 ∧ (3 : Nat) ≤ 12) ∧
    month_range 2024 2 = (⟨2024, 2, 1⟩, ⟨2024, 2, 29⟩) ∧
    default_range ⟨2026, 3, 15⟩ = (⟨2026, 2, 1⟩, ⟨2026, 2, 28⟩) := by
  have h := c7_date_range 2024 2 2026 3 15 (by decide) (by decide) (by decide) (by decide)
  exact ⟨⟨by decide, by decide, by decide, by decide⟩,
    h.1.trans (by decide), h.2.trans (by decide)⟩

/-- C3 (counterexample): summary generation is not deterministic across
runs.  Both `List.dedup` and its reverse are valid enumerations of
`list(set(...))` — the set order is unspecified and varies between Python
processes under hash randomization — yet on a commit whose diff adds the
two section headings Alpha and Beta they produce different report text
(`Alpha, Beta` versus `Beta, Alpha` in the Updated list). -/
theorem c3_counterexample :
    ¬ (∀ e₁ e₂ : List String → List String, ValidSetEnum e₁ → ValidSetEnum e₂ →
        ∀ (filesOf : String → List String) (showOut : String → String → String)
          (cbp : List (String × List Commit)) (mn : String),
        generate_summary e₁ filesOf showOut cbp mn
          = generate_summary e₂ filesOf showOut cbp mn) := by
  intro h
  have hv1 : ValidSetEnum (fun l => l.dedup) :=
    fun l => ⟨List.nodup_dedup l, fun a => List.mem_dedup⟩
  have hv2 : ValidSetEnum (fun l => l.dedup.reverse) :=
    fun l => ⟨by simpa using List.nodup_dedup l,
      fun a => by simp [List.mem_reverse, List.mem_dedup]⟩
  have heq := h _ _ hv1 hv2 (fun _ => ["src/content/docs/cache/foo.md"])
    (fun _ _ => "+## Alpha\n+## Beta")
    [("Cache", [⟨"h1", "Update cache docs", "2026-01-02", "ann"⟩])] "January 2026"
  exact absurd heq (by decide)

/-- C3 (amended): summary generation is deterministic given a fixed
set-iteration order — `generate_summary` is a pure function of the input
data together with the set enumeration used by `get_file_sections`, and
two runs whose enumerations agree on the first three elements of every
deduplicated section list produce character-for-character identical text.
Across runs the unspecified set order can reorder (or, beyond three,
reselect) the section headers, as the counterexample shows; all other
parts of the assembly are determined by the input data. -/
theorem c3_deterministic_given_enum (e₁ e₂ : List String → List String)
    (h : ∀ l, (e₁ l).take 3 = (e₂ l).take 3)
    (filesOf : String → List String) (showOut : String → String → String)
    (cbp : List (String × List Commit)) (mn : String) :
    generate_summary e₁ filesOf showOut cbp mn
      = generate_summary e₂ filesOf showOut cbp mn := by
  unfold generate_summary
  have hs : (fun (hsh f : String) => get_file_sections e₁ (showOut hsh f))
      = (fun (hsh f : String) => get_file_sections e₂ (showOut hsh f)) := by
    funext hsh f
    unfold get_file_sections
    rw [h]
  rw [hs]

/-- Witness for `c3_deterministic_given_enum`: the truncation of
`List.dedup` to three elements agrees with it on every first-three
prefix, and both runs emit the same text on the concrete input. -/
theorem c3_deterministic_given_enum_witness :
    (∀ l : List String, (List.dedup l).take 3 = ((List.dedup l).take 3).take 3) ∧
    generate_summary (fun l => l.dedup) (fun _ => ["src/content/docs/cache/foo.md"])
        (fun _ _ => "+## Alpha\n+## Beta")
        [("Cache", [⟨"h1", "Update cache docs", "2026-01-02", "ann"⟩])] "January 2026"
      = generate_summary (fun l => (List.dedup l).take 3)
        (fun _ => ["src/content/docs/cache/foo.md"])
        (fun _ _ => "+## Alpha\n+## Beta")
        [("Cache", [⟨"h1", "Update cache docs", "2026-01-02", "ann"⟩])] "January 2026" :=
  ⟨fun l => by simp [List.take_take],
    c3_deterministic_given_enum (fun l => l.dedup) (fun l => (List.dedup l).take 3)
      (fun l => by simp [List.take_take])
      (fun _ => ["src/content/docs/cache/foo.md"])
      (fun _ _ => "+## Alpha\n+## Beta")
      [("Cache", [⟨"h1", "Update cache docs", "2026-01-02", "ann"⟩])] "January 2026"⟩

end DocTracker
